import Mathlib

/-!
A shallow embedding of `library_manager.py`, a single-module personal-library
catalog tool, together with proofs about its operations.

Modelling conventions:
* Python strings are lists of characters (`Str`); `str.lower` is per-character
  lowercasing and `str.strip` drops whitespace at both ends.
* Book records are a fixed five-field structure (`Book`); at the persistence
  boundary they appear as JSON documents (`Json`), where a Python dict is an
  insertion-ordered association list.
* Console input is a finite list of lines threaded through the input
  validator; `none` models "the stream ran out while the program was still
  prompting".
* The persistent store is a three-state value (`StoreState`): absent, present
  but unreadable/unparseable, or present and holding a parsed JSON document.
  `json.dump`/`json.load` are modelled at the document level (JSON text
  serialisation round-trips parsed documents).
-/

/-- Python strings, modelled as lists of characters. -/
abbrev Str : Type := List Char

/-- Models Python `str.lower()` (per-character lowercasing; ASCII-faithful). -/
def lowerStr (s : Str) : Str := s.map Char.toLower

/-- Whitespace recognised by `str.strip()` (ASCII fragment). -/
def isSpaceChar (c : Char) : Bool := c == ' ' || c == '\t' || c == '\n' || c == '\r'

/-- Models Python `str.strip()`: drop whitespace from both ends. -/
def stripStr (s : Str) : Str :=
  ((s.dropWhile isSpaceChar).reverse.dropWhile isSpaceChar).reverse

/-- Decimal-digit accumulator; `none` as soon as a non-digit appears.
Part of the model of Python `int()`. -/
def digitsAux : List Char → Nat → Option Nat
  | [], acc => some acc
  | c :: rest, acc =>
    if c.isDigit then digitsAux rest (10 * acc + (c.toNat - 48)) else none

/-- A nonempty all-digit string to its numeric value. -/
def digitsVal : List Char → Option Nat
  | [] => none
  | c :: rest => digitsAux (c :: rest) 0

/-- Models Python `int()` applied to an already-stripped string: an optional
sign followed by one or more decimal digits; `none` models `ValueError`. -/
def parseInt? (s : Str) : Option Int :=
  match s with
  | '-' :: rest => (digitsVal rest).map (fun n => -(n : Int))
  | '+' :: rest => (digitsVal rest).map (fun n => (n : Int))
  | _ => (digitsVal s).map (fun n => (n : Int))

/-- The three input categories accepted by `get_valid_input`
(`str`, `int`, `bool`). -/
inductive InTy where
  | text : InTy
  | int : InTy
  | yn : InTy
deriving DecidableEq

/-- A validated input value: a Python `str`, `int` or `bool`. -/
inductive Val where
  | vs : Str → Val
  | vi : Int → Val
  | vb : Bool → Val
deriving DecidableEq

/-- The conversion step of `get_valid_input`: turn the stripped line into a
value of the requested category.  For the yes/no category the accepted tokens
are the case-insensitive `yes`/`no`/`y`/`n`, and the boolean is whether the
token is `yes` or `y`. -/
def convertInput : InTy → Str → Option Val
  | .text, s => some (.vs s)
  | .int, s => (parseInt? s).map .vi
  | .yn, s =>
    if lowerStr s = "yes".data ∨ lowerStr s = "no".data ∨
        lowerStr s = "y".data ∨ lowerStr s = "n".data then
      some (.vb (decide (lowerStr s = "yes".data ∨ lowerStr s = "y".data)))
    else none

/-- One prompt round of `get_valid_input` on a single line: `some v` when the
line is accepted, `none` when it is rejected (empty after stripping, not
convertible, or outside a nonempty restricted set).  The source guards the
restriction with `if valid_options and ...`, so a Python-falsy (empty)
`valid_options` list imposes no restriction. -/
def stepInput (t : InTy) (opts : Option (List Val)) (line : Str) : Option Val :=
  if stripStr line = [] then none
  else
    match convertInput t (stripStr line) with
    | none => none
    | some v =>
      match opts with
      | none => some v
      | some os => if os ≠ [] ∧ v ∉ os then none else some v

/-- `get_valid_input` over a finite stream of input lines: rejected lines only
print a message and re-prompt (modelled by recursing on the rest of the
stream); the first accepted value is returned together with the unconsumed
lines; `none` models a stream that ran out while the program was still
prompting.  The function never returns a rejected value. -/
def get_valid_input (t : InTy) (opts : Option (List Val)) : List Str → Option (Val × List Str)
  | [] => none
  | line :: rest =>
    match stepInput t opts line with
    | some v => some (v, rest)
    | none => get_valid_input t opts rest

/-- A book record: the five fixed fields assembled by `add_book`. -/
structure Book where
  title : Str
  author : Str
  year : Int
  genre : Str
  read : Bool
deriving DecidableEq

/-- `add_book`: run the validator for title, author, year (int), genre and
read-status (yes/no) in order, then append the assembled record to the
catalog.  Returns the new catalog and the unconsumed input lines; `none`
models an input stream that ran out mid-prompt. -/
def add_book (library : List Book) (input : List Str) : Option (List Book × List Str) :=
  match get_valid_input .text none input with
  | some (.vs t, i1) =>
    match get_valid_input .text none i1 with
    | some (.vs a, i2) =>
      match get_valid_input .int none i2 with
      | some (.vi y, i3) =>
        match get_valid_input .text none i3 with
        | some (.vs g, i4) =>
          match get_valid_input .yn none i4 with
          | some (.vb r, i5) => some (library ++ [⟨t, a, y, g, r⟩], i5)
          | _ => none
        | _ => none
      | _ => none
    | _ => none
  | _ => none

/-- The match test of `remove_book`:
`book['title'].lower() == title.lower()` (exact case-insensitive equality). -/
def matchesTitle (title : Str) (b : Book) : Bool :=
  decide (lowerStr b.title = lowerStr title)

/-- Models Python `list.remove(m)`: delete the first element equal to `m`
(on a list without such an element Python raises; unreachable in this
program, modelled as the identity). -/
def removeFirst : List Book → Book → List Book
  | [], _ => []
  | b :: rest, m => if b = m then rest else b :: removeFirst rest m

/-- Models Python list indexing `l[i]` with a possibly negative index
(negative counts from the end); out-of-range access raises `IndexError` in
Python — unreachable in this program — and is modelled as `none`. -/
def pyGet? (l : List Book) (i : Int) : Option Book :=
  if 0 ≤ i then l[i.toNat]?
  else if 0 ≤ (l.length : Int) + i then l[((l.length : Int) + i).toNat]?
  else none

/-- The observable outcome of `remove_book`:  the empty-library message, the
no-book-found message, a successful removal carrying the new catalog, or the
(unreachable) out-of-range index access. -/
inductive RemoveResult where
  | emptyLib : RemoveResult
  | notFound : RemoveResult
  | removed : List Book → RemoveResult
  | badChoice : RemoveResult
deriving DecidableEq

/-- `remove_book`: given the entered title and the (validated) 1-based choice
used when several records match, filter the catalog for case-insensitive
title equality, pick `found_books[choice-1]` when there are several matches
(`found_books[0]` when there is one), and delete it with `library.remove`. -/
def remove_book (library : List Book) (title : Str) (choice : Int) : RemoveResult :=
  if library = [] then .emptyLib
  else if library.filter (matchesTitle title) = [] then .notFound
  else if 1 < (library.filter (matchesTitle title)).length then
    match pyGet? (library.filter (matchesTitle title)) (choice - 1) with
    | some b => .removed (removeFirst library b)
    | none => .badChoice
  else
    match pyGet? (library.filter (matchesTitle title)) 0 with
    | some b => .removed (removeFirst library b)
    | none => .notFound

/-- The catalog after a remove invocation: only a successful removal changes
it. -/
def remove_catalog (library : List Book) : RemoveResult → List Book
  | .removed l => l
  | _ => library

/-- `needle` begins `hay` (helper for Python substring containment). -/
def leadsList : Str → Str → Bool
  | [], _ => true
  | _ :: _, [] => false
  | a :: as, b :: bs => a == b && leadsList as bs

/-- Models Python `needle in hay` on strings: substring containment. -/
def containsSub (needle : Str) : Str → Bool
  | [] => needle == []
  | c :: rest => leadsList needle (c :: rest) || containsSub needle rest

/-- `search_books`: with a non-empty catalog, mode `1` filters on
case-insensitive substring containment in the title, any other (validated:
`2`) mode on the author; `none` models the empty-library early return. -/
def search_books (library : List Book) (choice : Nat) (term : Str) : Option (List Book) :=
  if library = [] then none
  else some (if choice = 1 then
    library.filter (fun b => containsSub (lowerStr term) (lowerStr b.title))
  else
    library.filter (fun b => containsSub (lowerStr term) (lowerStr b.author)))

/-- Models Python `dict.get(k, 0)` on an insertion-ordered association list. -/
def dictGet (d : List (Str × Nat)) (k : Str) : Nat :=
  match d.find? (fun q => decide (q.1 = k)) with
  | some q => q.2
  | none => 0

/-- Models Python `d[k] = v` on an insertion-ordered association list: an
existing key keeps its position, a new key is appended. -/
def dictSet (d : List (Str × Nat)) (k : Str) (v : Nat) : List (Str × Nat) :=
  if d.any (fun q => decide (q.1 = k)) then
    d.map (fun q => if q.1 = k then (k, v) else q)
  else d ++ [(k, v)]

/-- The grouping loop of `display_statistics`:
`for book in library: d[key] = d.get(key, 0) + 1` over an insertion-ordered
dict. -/
def countsByKey (ks : List Str) : List (Str × Nat) :=
  ks.foldl (fun d k => dictSet d k (dictGet d k + 1)) []

/-- `sum(1 for book in library if book['read'])`. -/
def readCount (library : List Book) : Nat :=
  (library.filter (fun b => b.read)).length

/-- The quantities printed by `display_statistics` (floats modelled as exact
rationals). -/
structure StatsReport where
  total : Nat
  percent : ℚ
  genres : List (Str × Nat)
  authors : List (Str × Nat)
deriving DecidableEq

/-- `display_statistics`: `none` models the empty-library early return;
otherwise the total, the read percentage `(read_books / total_books) * 100`
(with the source's dead `else 0` guard kept), and the per-genre and
per-author counts in dict insertion order. -/
def display_statistics (library : List Book) : Option StatsReport :=
  if library = [] then none
  else
    some { total := library.length
           percent :=
             if 0 < library.length then
               ((readCount library : ℚ) / (library.length : ℚ)) * 100
             else 0
           genres := countsByKey (library.map Book.genre)
           authors := countsByKey (library.map Book.author) }

/-- The rendering of Python `f"{x:.1f}"` on an exact value: the integer part
and the single tenths digit of the value rounded to tenths. -/
def oneDecimal (q : ℚ) : ℤ × ℤ :=
  (round (10 * q) / 10, round (10 * q) % 10)

/-- Parsed JSON documents; a Python dict is an insertion-ordered association
list. -/
inductive Json where
  | null : Json
  | bool : Bool → Json
  | num : Int → Json
  | str : Str → Json
  | arr : List Json → Json
  | obj : List (Str × Json) → Json

/-- The five record keys used by `add_book` and the store format. -/
def kTitle : Str := "title".data

/-- Key `author`. -/
def kAuthor : Str := "author".data

/-- Key `year`. -/
def kYear : Str := "year".data

/-- Key `genre`. -/
def kGenre : Str := "genre".data

/-- Key `read`. -/
def kRead : Str := "read".data

/-- Key lookup in a JSON object (Python dict access). -/
def jLookup (fs : List (Str × Json)) (k : Str) : Option Json :=
  match fs.find? (fun q => decide (q.1 = k)) with
  | some q => some q.2
  | none => none

/-- The JSON image of a book record, in the field order `add_book` builds the
dict. -/
def Book.toJson (b : Book) : Json :=
  .obj [(kTitle, .str b.title), (kAuthor, .str b.author), (kYear, .num b.year),
        (kGenre, .str b.genre), (kRead, .bool b.read)]

/-- A JSON value is a well-shaped book record: an object of exactly five
fields whose five record keys carry text, text, integer, text and boolean
values. -/
def isBookJson : Json → Bool
  | .obj fs =>
    fs.length == 5 &&
    (match jLookup fs kTitle with | some (.str _) => true | _ => false) &&
    (match jLookup fs kAuthor with | some (.str _) => true | _ => false) &&
    (match jLookup fs kYear with | some (.num _) => true | _ => false) &&
    (match jLookup fs kGenre with | some (.str _) => true | _ => false) &&
    (match jLookup fs kRead with | some (.bool _) => true | _ => false)
  | _ => false

/-- Read a book record back from its JSON form. -/
def bookFromJson (j : Json) : Option Book :=
  match j with
  | .obj fs =>
    match jLookup fs kTitle, jLookup fs kAuthor, jLookup fs kYear,
          jLookup fs kGenre, jLookup fs kRead with
    | some (.str t), some (.str a), some (.num y), some (.str g), some (.bool r) =>
      some ⟨t, a, y, g, r⟩
    | _, _, _, _, _ => none
  | _ => none

/-- Read back a list of records, failing on any malformed entry. -/
def decodeList : List Json → Option (List Book)
  | [] => some []
  | j :: rest =>
    match bookFromJson j, decodeList rest with
    | some b, some bs => some (b :: bs)
    | _, _ => none

/-- Read back a whole catalog document (an array of records). -/
def decodeCatalog : Json → Option (List Book)
  | .arr js => decodeList js
  | _ => none

/-- The persistent store: absent, present but unreadable/unparseable, or
present and holding a parsed JSON document. -/
inductive StoreState where
  | absent : StoreState
  | corrupt : StoreState
  | stored : Json → StoreState

/-- `save_library` (successful write): serialise the catalog wholesale as a
JSON array of record objects, overwriting the store.  (A failed write prints
an error and leaves the store unchanged; no claim depends on it.) -/
def save_library (library : List Book) : StoreState :=
  .stored (.arr (library.map Book.toJson))

/-- `load_library`: a missing store silently yields `[]`; a read/parse
failure prints the error and yields `[]`; otherwise the parsed document is
returned as-is, with no shape validation. -/
def load_library : StoreState → Json
  | .absent => .arr []
  | .corrupt => .arr []
  | .stored d => d

/-- Whether `load_library` prints an error message: only on a read/parse
failure of an existing store. -/
def load_reports_error : StoreState → Bool
  | .corrupt => true
  | _ => false

/-- Formalised from the claim language of C1: delete exactly the `k`-th
(0-based) record satisfying `p`, keeping every other record in its original
relative order. -/
def spec_eraseKthMatch : List Book → (Book → Bool) → Nat → List Book
  | [], _, _ => []
  | b :: rest, p, k =>
    if p b then
      match k with
      | 0 => rest
      | j + 1 => b :: spec_eraseKthMatch rest p j
    else b :: spec_eraseKthMatch rest p k

/-- Formalised from the claim language of C6: the distinct strings of `ks` in
order of first occurrence. -/
def firstOcc : List Str → List Str
  | [] => []
  | k :: rest => k :: (firstOcc rest).filter (fun x => decide (x ≠ k))

/-- The number of members of `ks` exactly equal to `k` (no normalisation). -/
def countEq (ks : List Str) (k : Str) : Nat :=
  (ks.filter (fun x => decide (x = k))).length

/-! ### Helper lemmas -/

theorem removeFirst_sublist : ∀ (l : List Book) (m : Book), List.Sublist (removeFirst l m) l
  | [], _ => List.Sublist.refl []
  | b :: rest, m => by
    unfold removeFirst
    split
    · exact List.sublist_cons_self b rest
    · exact List.cons_sublist_cons.2 (removeFirst_sublist rest m)

theorem removeFirst_length_ge : ∀ (l : List Book) (m : Book), l.length ≤ (removeFirst l m).length + 1
  | [], _ => by simp [removeFirst]
  | b :: rest, m => by
    unfold removeFirst
    split
    · simp
    · have := removeFirst_length_ge rest m
      simp only [List.length_cons]
      omega

theorem jLookup_cons_self (k : Str) (v : Json) (fs : List (Str × Json)) :
    jLookup ((k, v) :: fs) k = some v := by
  unfold jLookup
  rw [List.find?_cons_of_pos _ (by simp)]

theorem jLookup_cons_ne (k k' : Str) (v : Json) (fs : List (Str × Json)) (h : k' ≠ k) :
    jLookup ((k', v) :: fs) k = jLookup fs k := by
  unfold jLookup
  rw [List.find?_cons_of_neg _ (by simp [h])]

theorem bookFromJson_toJson (b : Book) : bookFromJson (Book.toJson b) = some b := rfl

theorem decodeList_map_toJson : ∀ lib : List Book, decodeList (lib.map Book.toJson) = some lib
  | [] => rfl
  | b :: rest => by
    simp [decodeList, bookFromJson_toJson, decodeList_map_toJson rest]

/-! ### Claims -/

/-- C10: For every catalog and every input to the remove operation, the
resulting catalog is a subsequence of the prior catalog — no record is
modified or added, the relative order of the remaining records is unchanged,
and at most one record is removed. -/
theorem remove_book_shrinks_by_at_most_one (lib : List Book) (title : Str) (choice : Int) :
    List.Sublist (remove_catalog lib (remove_book lib title choice)) lib ∧
      lib.length ≤ (remove_catalog lib (remove_book lib title choice)).length + 1 := by
  unfold remove_book
  split
  · exact ⟨List.Sublist.refl _, Nat.le_succ _⟩
  split
  · exact ⟨List.Sublist.refl _, Nat.le_succ _⟩
  split
  · split
    · exact ⟨removeFirst_sublist lib _, removeFirst_length_ge lib _⟩
    · exact ⟨List.Sublist.refl _, Nat.le_succ _⟩
  · split
    · exact ⟨removeFirst_sublist lib _, removeFirst_length_ge lib _⟩
    · exact ⟨List.Sublist.refl _, Nat.le_succ _⟩

/-- C5: When no record's title equals the entered title case-insensitively,
the remove operation reports the not-found message and leaves the catalog
identical.  (An entered title presupposes a non-empty catalog: on an empty
one the operation returns with the empty-library message before prompting.) -/
theorem remove_book_no_match (lib : List Book) (title : Str) (choice : Int)
    (hne : lib ≠ []) (hnone : ∀ b ∈ lib, matchesTitle title b = false) :
    remove_book lib title choice = .notFound ∧
      remove_catalog lib (remove_book lib title choice) = lib := by
  have hf : lib.filter (matchesTitle title) = [] :=
    List.filter_eq_nil_iff.2 (by simpa using hnone)
  have h1 : remove_book lib title choice = .notFound := by
    unfold remove_book
    simp [hne, hf]
  exact ⟨h1, by simp [h1, remove_catalog]⟩

/-- C5 witness. -/
theorem remove_book_no_match_witness :
    remove_book [⟨"aa".data, "x".data, 2000, "g".data, false⟩] ("zz".data) 1 = .notFound ∧
      remove_catalog [⟨"aa".data, "x".data, 2000, "g".data, false⟩]
        (remove_book [⟨"aa".data, "x".data, 2000, "g".data, false⟩] ("zz".data) 1) =
        [⟨"aa".data, "x".data, 2000, "g".data, false⟩] :=
  remove_book_no_match _ _ _ (by decide) (by decide)

/-- C8: Loading from a missing store yields an empty catalog with no error
reported; any read/parse failure of an existing store reports the error and
yields an empty catalog instead of propagating the exception. -/
theorem load_library_absent_or_corrupt :
    load_library .absent = .arr [] ∧ load_reports_error .absent = false ∧
      load_library .corrupt = .arr [] ∧ load_reports_error .corrupt = true :=
  ⟨rfl, rfl, rfl, rfl⟩

/-- C3: Saving any catalog of five-field records and loading it back yields
an identical ordered sequence of records: the loaded document decodes to
exactly the original list, field for field. -/
theorem save_load_round_trip (lib : List Book) :
    decodeCatalog (load_library (save_library lib)) = some lib := by
  simpa [save_library, load_library, decodeCatalog] using decodeList_map_toJson lib

/-- C2 (amended): every record assembled by the add operation is a
well-shaped five-field book appended to the catalog, but the load operation
returns the stored document as-is with no shape validation, so the catalog
immediately after startup is well-shaped only if the store's contents were. -/
theorem catalog_record_shape :
    (∀ b : Book, isBookJson (Book.toJson b) = true) ∧
    (∀ (lib : List Book) (input : List Str) out, add_book lib input = some out →
      ∃ b rest, out = (lib ++ [b], rest)) ∧
    (∀ d, load_library (.stored d) = d) ∧
    load_library .absent = .arr [] ∧ load_library .corrupt = .arr [] := by
  refine ⟨fun b => rfl, ?_, fun d => rfl, rfl, rfl⟩
  intro lib input out h
  unfold add_book at h
  repeat split at h
  all_goals first
    | exact ⟨_, _, (Option.some.inj h).symm⟩
    | simp at h

/-- C2 witness: a concrete successful add appends exactly one record. -/
theorem catalog_record_shape_witness :
    add_book [] (["Dune", "Herbert", "1965", "SF", "y"].map String.data) =
      some ([⟨"Dune".data, "Herbert".data, 1965, "SF".data, true⟩], []) ∧
    (∃ b rest, (([⟨"Dune".data, "Herbert".data, 1965, "SF".data, true⟩], []) :
        List Book × List Str) = ([] ++ [b], rest)) :=
  ⟨by decide, catalog_record_shape.2.1 [] (["Dune", "Herbert", "1965", "SF", "y"].map String.data)
    _ (by decide)⟩

/-- C2 counterexample: loading a store whose document is an array holding a
one-field object puts a record into the startup catalog that is not a
well-shaped five-field book, so the claimed invariant fails at the load
boundary. -/
theorem load_no_validation_cex :
    load_library (.stored (.arr [.obj [(kTitle, .str "x".data)]])) =
      .arr [.obj [(kTitle, .str "x".data)]] ∧
    isBookJson (.obj [(kTitle, .str "x".data)]) = false :=
  ⟨rfl, by decide⟩

/-- Concrete records for the remove-operation counterexample and witness:
two books titled `aa` (one pair field-identical) and one titled `cc`. -/
def bkA : Book := ⟨"aa".data, "x".data, 2000, "g".data, false⟩

/-- A non-matching record used between the two `aa` matches. -/
def bkC : Book := ⟨"cc".data, "x".data, 2001, "g".data, false⟩

/-- A second `aa`-titled record that differs from `bkA` in author and year. -/
def bkA2 : Book := ⟨"aa".data, "y".data, 2002, "g".data, false⟩

theorem removeFirst_eq_eraseKth (p : Book → Bool) :
    ∀ (l : List Book) (k : Nat) (m : Book),
      (l.filter p)[k]? = some m → m ∉ (l.filter p).take k →
      removeFirst l m = spec_eraseKthMatch l p k
  | [], k, m => by simp
  | b :: rest, k, m => by
    intro hget hfresh
    by_cases hpb : p b
    · rw [List.filter_cons_of_pos hpb] at hget hfresh
      cases k with
      | zero =>
        simp only [List.getElem?_cons_zero, Option.some.injEq] at hget
        subst hget
        unfold removeFirst spec_eraseKthMatch
        simp [hpb]
      | succ j =>
        rw [List.getElem?_cons_succ] at hget
        rw [List.take_succ_cons] at hfresh
        have hbm : b ≠ m := fun he => hfresh (he ▸ List.mem_cons_self b _)
        have hm2 : m ∉ (rest.filter p).take j := fun hin => hfresh (List.mem_cons_of_mem _ hin)
        unfold removeFirst spec_eraseKthMatch
        simp only [hpb, if_neg hbm, if_pos]
        exact congrArg (b :: ·) (removeFirst_eq_eraseKth p rest j m hget hm2)
    · rw [List.filter_cons_of_neg hpb] at hget hfresh
      have hm : m ∈ rest.filter p := by
        obtain ⟨hl, rfl⟩ := List.getElem?_eq_some.1 hget
        exact (rest.filter p).getElem_mem hl
      have hpm : p m = true := (List.mem_filter.1 hm).2
      have hbm : b ≠ m := fun he => hpb (he ▸ hpm)
      unfold removeFirst spec_eraseKthMatch
      simp only [if_neg hbm, if_neg hpb]
      exact congrArg (b :: ·) (removeFirst_eq_eraseKth p rest k m hget hfresh)

/-- C1 (amended): with N>1 case-insensitive matches and a chosen index whose
match differs in at least one field from every earlier match, the remove
operation deletes exactly that match and keeps every other record in its
original relative order.  (Without that proviso `library.remove` deletes the
first field-identical record instead — see the counterexample.) -/
theorem remove_book_kth_match (lib : List Book) (title : Str) (k : Nat) (m : Book)
    (hmulti : 1 < (lib.filter (matchesTitle title)).length)
    (hget : (lib.filter (matchesTitle title))[k]? = some m)
    (hfresh : m ∉ (lib.filter (matchesTitle title)).take k) :
    remove_book lib title ((k : Int) + 1) =
      .removed (spec_eraseKthMatch lib (matchesTitle title) k) := by
  have hfne : lib.filter (matchesTitle title) ≠ [] := by
    intro h; rw [h] at hmulti; simp at hmulti
  have hlne : lib ≠ [] := by
    intro h; subst h; simp at hfne
  have hpy : pyGet? (lib.filter (matchesTitle title)) ((k : Int) + 1 - 1) = some m := by
    have he : ((k : Int) + 1 - 1) = (k : Int) := by ring
    rw [he]
    unfold pyGet?
    simpa using hget
  unfold remove_book
  rw [if_neg hlne, if_neg hfne, if_pos hmulti, hpy]
  exact congrArg RemoveResult.removed (removeFirst_eq_eraseKth _ lib k m hget hfresh)

/-- C1 witness: choosing the second of two distinct `aa` matches removes
exactly that one. -/
theorem remove_book_kth_match_witness :
    remove_book [bkA, bkC, bkA2] ("aa".data) (((1 : Nat) : Int) + 1) =
      .removed (spec_eraseKthMatch [bkA, bkC, bkA2] (matchesTitle ("aa".data)) 1) :=
  remove_book_kth_match [bkA, bkC, bkA2] ("aa".data) 1 bkA2 (by decide) (by decide) (by decide)

/-- C1 counterexample: the catalog `[bkA, bkC, bkA]` holds two field-identical
`aa` matches with a `cc` record between them; choosing match number 2, the
code removes the first equal record (`library.remove`), producing
`[bkC, bkA]`, while deleting exactly the second listed match would produce
`[bkA, bkC]` — so the claim as stated fails here. -/
theorem remove_book_kth_match_cex :
    remove_book [bkA, bkC, bkA] ("aa".data) 2 = .removed [bkC, bkA] ∧
    spec_eraseKthMatch [bkA, bkC, bkA] (matchesTitle ("aa".data)) 1 = [bkA, bkC] ∧
    remove_book [bkA, bkC, bkA] ("aa".data) 2 ≠
      .removed (spec_eraseKthMatch [bkA, bkC, bkA] (matchesTitle ("aa".data)) 1) :=
  ⟨by decide, by decide, by decide⟩

theorem leadsList_iff : ∀ (n h : Str), leadsList n h = true ↔ ∃ t, h = n ++ t
  | [], h => by simp [leadsList]
  | a :: as, [] => by simp [leadsList]
  | a :: as, b :: bs => by
    simp only [leadsList, Bool.and_eq_true, beq_iff_eq]
    rw [leadsList_iff as bs]
    constructor
    · rintro ⟨rfl, t, rfl⟩
      exact ⟨t, rfl⟩
    · rintro ⟨t, he⟩
      injection he with h1 h2
      exact ⟨h1.symm, t, h2⟩

theorem containsSub_iff : ∀ (n h : Str), containsSub n h = true ↔ ∃ u v, h = u ++ n ++ v
  | n, [] => by
    simp only [containsSub, beq_iff_eq]
    constructor
    · rintro rfl
      exact ⟨[], [], rfl⟩
    · rintro ⟨u, v, huv⟩
      rcases List.append_eq_nil.1 huv.symm with ⟨h1, h2⟩
      exact (List.append_eq_nil.1 h1).2
  | n, c :: r => by
    simp only [containsSub, Bool.or_eq_true]
    rw [leadsList_iff n (c :: r), containsSub_iff n r]
    constructor
    · rintro (⟨t, ht⟩ | ⟨u, v, huv⟩)
      · exact ⟨[], t, by simpa using ht⟩
      · exact ⟨c :: u, v, by simp [huv]⟩
    · rintro ⟨u, v, huv⟩
      cases u with
      | nil => exact Or.inl ⟨v, by simpa using huv⟩
      | cons x u2 =>
        injection huv with h1 h2
        exact Or.inr ⟨u2, v, h2⟩

/-- C4: On a non-empty catalog with a mode (1 = title, 2 = author) and a
non-empty term, search returns exactly the records whose chosen field
contains the term as a case-insensitive substring, in catalog order
(a sublist of the catalog). -/
theorem search_books_found (lib : List Book) (choice : Nat) (term : Str)
    (hlib : lib ≠ []) (hmode : choice = 1 ∨ choice = 2) (_hterm : term ≠ []) :
    ∃ res, search_books lib choice term = some res ∧ List.Sublist res lib ∧
      ∀ b, b ∈ res ↔ b ∈ lib ∧
        ∃ u v, lowerStr (if choice = 1 then b.title else b.author) =
          u ++ lowerStr term ++ v := by
  unfold search_books
  rw [if_neg hlib]
  rcases hmode with hc | hc <;> subst hc
  · refine ⟨lib.filter (fun b => containsSub (lowerStr term) (lowerStr b.title)),
      by simp, List.filter_sublist _, fun b => ?_⟩
    simp only [if_pos rfl, List.mem_filter]
    exact and_congr_right fun _ => containsSub_iff _ _
  · refine ⟨lib.filter (fun b => containsSub (lowerStr term) (lowerStr b.author)),
      by norm_num, List.filter_sublist _, fun b => ?_⟩
    simp only [List.mem_filter, if_neg (by decide : ¬(2 : Nat) = 1)]
    exact and_congr_right fun _ => containsSub_iff _ _

/-- The two records of the spec's search example. -/
def bkHarry : Book := ⟨"Harry Potter".data, "Rowling".data, 1997, "Fantasy".data, true⟩

/-- The second record of the spec's search example. -/
def bkHobbit : Book := ⟨"The Hobbit".data, "Tolkien".data, 1937, "Fantasy".data, false⟩

/-- C4 witness: searching by title for `har` over `Harry Potter` and
`The Hobbit` returns exactly `Harry Potter`, and the general
characterisation instantiates at this input. -/
theorem search_books_found_witness :
    search_books [bkHarry, bkHobbit] 1 ("har".data) = some [bkHarry] ∧
      (∃ res, search_books [bkHarry, bkHobbit] 1 ("har".data) = some res ∧
        List.Sublist res [bkHarry, bkHobbit] ∧
        ∀ b, b ∈ res ↔ b ∈ [bkHarry, bkHobbit] ∧
          ∃ u v, lowerStr (if (1 : Nat) = 1 then b.title else b.author) =
            u ++ lowerStr ("har".data) ++ v) :=
  ⟨by decide,
   search_books_found [bkHarry, bkHobbit] 1 ("har".data) (by decide) (Or.inl rfl) (by decide)⟩

theorem stepInput_some (t : InTy) (opts : Option (List Val)) (line : Str) (v : Val)
    (h : stepInput t opts line = some v) :
    stripStr line ≠ [] ∧ convertInput t (stripStr line) = some v ∧
      ∀ os, opts = some os → os ≠ [] → v ∈ os := by
  unfold stepInput at h
  split at h
  · simp at h
  rename_i hne
  split at h
  · simp at h
  rename_i v2 hconv
  split at h
  · obtain rfl := Option.some.inj h
    exact ⟨hne, hconv, fun os hos => by cases hos⟩
  · rename_i os
    split at h
    · simp at h
    · rename_i hrej
      obtain rfl := Option.some.inj h
      push_neg at hrej
      refine ⟨hne, hconv, fun os2 hos2 hne2 => ?_⟩
      obtain rfl := Option.some.inj hos2
      exact hrej (by simpa using hne2)

/-- C9 (amended): whenever the input validator returns a value, that value
came from a stream line that was non-empty after stripping and converted
successfully to the requested category, and it belongs to any supplied
*non-empty* restricted set (the source's `if valid_options and ...` guard
treats a Python-falsy empty set as no restriction); a rejected line only
re-prompts — the validator moves on to the rest of the stream, never
returning or terminating on it. -/
theorem get_valid_input_sound :
    (∀ t opts lines v rest, get_valid_input t opts lines = some (v, rest) →
      ∃ line, line ∈ lines ∧ stripStr line ≠ [] ∧
        convertInput t (stripStr line) = some v ∧
        ∀ os, opts = some os → os ≠ [] → v ∈ os) ∧
    (∀ t opts line rest, stepInput t opts line = none →
      get_valid_input t opts (line :: rest) = get_valid_input t opts rest) := by
  constructor
  · intro t opts lines
    induction lines with
    | nil =>
      intro v rest h
      simp [get_valid_input] at h
    | cons line ls ih =>
      intro v rest h
      unfold get_valid_input at h
      split at h
      · rename_i v2 hs
        simp only [Option.some.injEq, Prod.mk.injEq] at h
        obtain ⟨rfl, rfl⟩ := h
        obtain ⟨h1, h2, h3⟩ := stepInput_some t opts line v2 hs
        exact ⟨line, List.mem_cons_self _ _, h1, h2, h3⟩
      · obtain ⟨line2, hmem, h1, h2, h3⟩ := ih v rest h
        exact ⟨line2, List.mem_cons_of_mem _ hmem, h1, h2, h3⟩
  · intro t opts line rest h
    unfold get_valid_input
    split
    · rename_i v2 hs
      rw [h] at hs
      cases hs
    · cases rest <;> rfl

/-- C9 counterexample: with a supplied (but empty) restricted set the
validator returns a value that is not a member of that set — the source
guards the restriction with `if valid_options and ...`, and the Python-falsy
empty list disables the check. -/
theorem get_valid_input_empty_options_cex :
    get_valid_input .int (some []) ["5".data] = some (.vi 5, []) ∧
      Val.vi 5 ∉ ([] : List Val) :=
  ⟨by decide, by decide⟩

/-- C9 witness: over the stream `abc`, `9`, `2` with restricted set {1, 2},
the two invalid lines are skipped and the returned value is the converted
member `2`. -/
theorem get_valid_input_sound_witness :
    ∃ line, line ∈ ["abc".data, "9".data, "2".data] ∧ stripStr line ≠ [] ∧
      convertInput .int (stripStr line) = some (.vi 2) ∧
      ∀ os, (some [Val.vi 1, Val.vi 2] : Option (List Val)) = some os →
        os ≠ [] → Val.vi 2 ∈ os :=
  get_valid_input_sound.1 .int (some [.vi 1, .vi 2])
    ["abc".data, "9".data, "2".data] (.vi 2) [] (by decide)

theorem find?_eq_self (k : Str) : ∀ l : List Str,
    l.find? (fun x => decide (x = k)) = if k ∈ l then some k else none
  | [] => by simp
  | x :: l => by
    by_cases hx : x = k
    · subst hx
      rw [List.find?_cons_of_pos _ (by simp)]
      simp
    · rw [List.find?_cons_of_neg _ (by simp [hx])]
      rw [find?_eq_self k l]
      by_cases hk : k ∈ l
      · simp [hk]
      · have hnx : k ∉ x :: l := by
          intro hmem
          rcases List.mem_cons.1 hmem with h | h
          · exact hx h.symm
          · exact hk h
        simp [hk, hnx]

theorem find?_entry (g : Str → Nat) (k : Str) : ∀ l : List Str,
    (l.map (fun x => (x, g x))).find? (fun q => decide (q.1 = k)) =
      (l.find? (fun x => decide (x = k))).map (fun x => (x, g x))
  | [] => by simp
  | x :: l => by
    simp only [List.map_cons]
    by_cases hx : x = k
    · rw [List.find?_cons_of_pos _ (by simp [hx]),
        List.find?_cons_of_pos _ (by simp [hx])]
      rfl
    · rw [List.find?_cons_of_neg _ (by simp [hx]),
        List.find?_cons_of_neg _ (by simp [hx])]
      exact find?_entry g k l

theorem dictGet_entries (g : Str → Nat) (l : List Str) (k : Str) :
    dictGet (l.map (fun x => (x, g x))) k = if k ∈ l then g k else 0 := by
  unfold dictGet
  rw [find?_entry, find?_eq_self]
  by_cases hk : k ∈ l
  · simp [hk]
  · simp [hk]

theorem any_entries (g : Str → Nat) (l : List Str) (k : Str) :
    (l.map (fun x => (x, g x))).any (fun q => decide (q.1 = k)) = decide (k ∈ l) := by
  induction l with
  | nil => simp
  | cons x l ih =>
    simp only [List.map_cons, List.any_cons, ih]
    by_cases hx : x = k
    · subst hx
      simp
    · have hkx : ¬k = x := fun h => hx h.symm
      simp [hx, hkx, List.mem_cons]

theorem mem_firstOcc : ∀ (l : List Str) (x : Str), x ∈ firstOcc l ↔ x ∈ l
  | [], x => by simp [firstOcc]
  | k :: l, x => by
    simp only [firstOcc, List.mem_cons, List.mem_filter, decide_eq_true_eq,
      mem_firstOcc l]
    constructor
    · rintro (rfl | ⟨h1, _⟩)
      · exact Or.inl rfl
      · exact Or.inr h1
    · rintro (rfl | h)
      · exact Or.inl rfl
      · by_cases hx : x = k
        · exact Or.inl hx
        · exact Or.inr ⟨h, hx⟩

theorem firstOcc_append_one (k : Str) : ∀ l : List Str,
    firstOcc (l ++ [k]) = if k ∈ l then firstOcc l else firstOcc l ++ [k]
  | [] => by simp [firstOcc]
  | a :: l => by
    by_cases hk : k ∈ l
    · rw [List.cons_append]
      simp only [firstOcc]
      rw [firstOcc_append_one k l, if_pos hk, if_pos (List.mem_cons_of_mem a hk)]
    · by_cases hak : k = a
      · subst hak
        rw [List.cons_append]
        simp only [firstOcc]
        rw [firstOcc_append_one k l, if_neg hk, if_pos (List.mem_cons_self k l),
          List.filter_append]
        simp
      · rw [List.cons_append]
        simp only [firstOcc]
        rw [firstOcc_append_one k l, if_neg hk,
          if_neg (show k ∉ a :: l by
            intro hmem
            rcases List.mem_cons.1 hmem with h | h
            · exact hak h
            · exact hk h),
          List.filter_append]
        simp only [List.filter_cons, List.filter_nil, decide_eq_true_eq]
        rw [if_pos hak, List.cons_append]

theorem countEq_append_one (l : List Str) (k x : Str) :
    countEq (l ++ [k]) x = countEq l x + if x = k then 1 else 0 := by
  unfold countEq
  rw [List.filter_append, List.length_append]
  by_cases hx : x = k
  · simp [hx]
  · have hkx : ¬k = x := fun h => hx h.symm
    simp [hx, hkx]

theorem countEq_eq_zero (l : List Str) (k : Str) (h : k ∉ l) : countEq l k = 0 := by
  unfold countEq
  rw [List.length_eq_zero, List.filter_eq_nil_iff]
  intro a ha
  simp only [decide_eq_true_eq]
  rintro rfl
  exact h ha

theorem countsByKey_spec (ks : List Str) :
    countsByKey ks = (firstOcc ks).map (fun x => (x, countEq ks x)) := by
  induction ks using List.reverseRecOn with
  | nil => rfl
  | append_singleton l k ih =>
    have hstep : countsByKey (l ++ [k]) =
        dictSet (countsByKey l) k (dictGet (countsByKey l) k + 1) := by
      unfold countsByKey
      rw [List.foldl_append]
      rfl
    rw [hstep, ih, dictGet_entries, firstOcc_append_one]
    simp only [mem_firstOcc]
    by_cases hk : k ∈ l
    · rw [if_pos hk, if_pos hk]
      unfold dictSet
      rw [any_entries, if_pos (by simp [mem_firstOcc, hk])]
      rw [List.map_map]
      apply List.map_congr_left
      intro x hx
      by_cases hxk : x = k
      · subst hxk
        simp [countEq_append_one, hk]
      · simp [hxk, countEq_append_one]
    · rw [if_neg hk, if_neg hk]
      unfold dictSet
      rw [any_entries, if_neg (by simp [mem_firstOcc, hk])]
      rw [List.map_append]
      have h1 : (firstOcc l).map (fun x => (x, countEq l x)) =
          (firstOcc l).map (fun x => (x, countEq (l ++ [k]) x)) := by
        apply List.map_congr_left
        intro x hx
        have hxl : x ∈ l := (mem_firstOcc l x).1 hx
        have hxk : ¬x = k := fun h => hk (h ▸ hxl)
        simp [countEq_append_one, hxk]
      rw [h1]
      simp [countEq_append_one, countEq_eq_zero l k hk]

/-- The four-record catalog of the spec's statistics example: exactly one
record has `read = true`; genres repeat, authors are distinct. -/
def lib4 : List Book :=
  [⟨"a".data, "w".data, 1, "g".data, true⟩,
   ⟨"b".data, "x".data, 2, "g".data, false⟩,
   ⟨"c".data, "y".data, 3, "h".data, false⟩,
   ⟨"d".data, "z".data, 4, "h".data, false⟩]

/-- C6: On a non-empty catalog the statistics operation counts records per
distinct genre string and per distinct author string by exact string
equality (no case or whitespace normalisation), and reports the groups in
order of each string's first occurrence in the catalog, each with its exact
count. -/
theorem display_statistics_groups (lib : List Book) (hlib : lib ≠ []) :
    ∃ r, display_statistics lib = some r ∧
      r.genres = (firstOcc (lib.map Book.genre)).map
        (fun g => (g, countEq (lib.map Book.genre) g)) ∧
      r.authors = (firstOcc (lib.map Book.author)).map
        (fun a => (a, countEq (lib.map Book.author) a)) := by
  unfold display_statistics
  rw [if_neg hlib]
  exact ⟨_, rfl, countsByKey_spec _, countsByKey_spec _⟩

/-- C6 witness: the grouping characterisation instantiated on the concrete
four-record catalog. -/
theorem display_statistics_groups_witness :
    ∃ r, display_statistics lib4 = some r ∧
      r.genres = (firstOcc (lib4.map Book.genre)).map
        (fun g => (g, countEq (lib4.map Book.genre) g)) ∧
      r.authors = (firstOcc (lib4.map Book.author)).map
        (fun a => (a, countEq (lib4.map Book.author) a)) :=
  display_statistics_groups lib4 (by decide)

/-- C7: On a non-empty catalog the statistics operation reports the read
percentage as (read count / total count) × 100 (floats modelled as exact
rationals) rendered to one decimal place; on the spec's four-record one-read
catalog this is exactly 25, rendering as `25.0%`; on an empty catalog it
reports the empty-library message and computes no percentage. -/
theorem display_statistics_percent :
    (∀ lib : List Book, lib ≠ [] → ∃ r, display_statistics lib = some r ∧
      r.percent = ((readCount lib : ℚ) / (lib.length : ℚ)) * 100) ∧
    display_statistics ([] : List Book) = none ∧
    (∃ r, display_statistics lib4 = some r ∧ r.percent = 25 ∧
      oneDecimal r.percent = (25, 0)) := by
  refine ⟨?_, rfl, ?_⟩
  · intro lib hlib
    unfold display_statistics
    rw [if_neg hlib, if_pos (List.length_pos.2 hlib)]
    exact ⟨_, rfl, rfl⟩
  · obtain ⟨r, hr, hp⟩ : ∃ r, display_statistics lib4 = some r ∧
        r.percent = ((readCount lib4 : ℚ) / (lib4.length : ℚ)) * 100 := by
      unfold display_statistics
      rw [if_neg (by decide : lib4 ≠ []), if_pos (by decide : 0 < lib4.length)]
      exact ⟨_, rfl, rfl⟩
    have hread : readCount lib4 = 1 := by decide
    have hlen : lib4.length = 4 := by decide
    have h25 : r.percent = 25 := by
      rw [hp, hread, hlen]
      norm_num
    refine ⟨r, hr, h25, ?_⟩
    rw [h25]
    unfold oneDecimal
    norm_num

/-- C7 witness: the percentage formula instantiated on the concrete
four-record catalog. -/
theorem display_statistics_percent_witness :
    lib4 ≠ [] ∧ (∃ r, display_statistics lib4 = some r ∧
      r.percent = ((readCount lib4 : ℚ) / (lib4.length : ℚ)) * 100) :=
  ⟨by decide, display_statistics_percent.1 lib4 (by decide)⟩
